import Mathlib

/-
  Verification development for the shepplogan crate (2D phantom rasterizer).

  The crate computes with IEEE f64.  We shallow-embed f64 as the type F below:
  NaN, the two infinities, and exact rationals for the finite values.  Finite
  arithmetic is exact (no rounding, no overflow) and the two signed zeros are
  collapsed into one; all special-value behaviour (NaN propagation, division
  by zero, comparisons that are false on NaN) follows IEEE 754.  Every concrete
  instance evaluated below is chosen so that the corresponding f64 computation
  in the crate is exact as well (dyadic constants, rotation angle zero), hence
  the model and the crate agree bit for bit on those inputs.

  The transcendental helpers (to_radians, sin, cos, sqrt) are not computable
  on rationals; the embedding is parameterised by an interpretation (Ops).
  Universal theorems quantify over every interpretation.  Concrete instances
  use ops0, an interpretation that is exact at the finitely many arguments
  those instances reach (angle zero and the f64 constant FRAC_PI_2).
-/

namespace Shepplogan

/-- Model of an IEEE f64 value: NaN, the infinities, or an exact rational. -/
inductive F where
  | nan : F
  | negInf : F
  | posInf : F
  | fin (q : ℚ) : F
deriving DecidableEq

/-- Negation of an f64 value. -/
def fneg : F → F
  | .nan => .nan
  | .negInf => .posInf
  | .posInf => .negInf
  | .fin q => .fin (-q)

/-- Addition of f64 values (IEEE special cases; exact on finite values). -/
def fadd : F → F → F
  | .nan, _ => .nan
  | _, .nan => .nan
  | .posInf, .negInf => .nan
  | .negInf, .posInf => .nan
  | .posInf, _ => .posInf
  | _, .posInf => .posInf
  | .negInf, _ => .negInf
  | _, .negInf => .negInf
  | .fin a, .fin b => .fin (a + b)

/-- Subtraction of f64 values, which IEEE defines as addition of the negation. -/
def fsub (a b : F) : F := fadd a (fneg b)

/-- Multiplication of f64 values (IEEE special cases; exact on finite values). -/
def fmul : F → F → F
  | .nan, _ => .nan
  | _, .nan => .nan
  | .posInf, .posInf => .posInf
  | .posInf, .negInf => .negInf
  | .negInf, .posInf => .negInf
  | .negInf, .negInf => .posInf
  | .posInf, .fin q => if q = 0 then .nan else if 0 < q then .posInf else .negInf
  | .fin q, .posInf => if q = 0 then .nan else if 0 < q then .posInf else .negInf
  | .negInf, .fin q => if q = 0 then .nan else if 0 < q then .negInf else .posInf
  | .fin q, .negInf => if q = 0 then .nan else if 0 < q then .negInf else .posInf
  | .fin a, .fin b => .fin (a * b)

/-- Division of f64 values.  Division by (the collapsed) zero yields an
infinity of the sign of the numerator, and 0/0 yields NaN, as in IEEE with a
positive zero divisor; in the crate every zero divisor arises from a square,
hence is the positive zero. -/
def fdiv : F → F → F
  | .nan, _ => .nan
  | _, .nan => .nan
  | .posInf, .posInf => .nan
  | .posInf, .negInf => .nan
  | .negInf, .posInf => .nan
  | .negInf, .negInf => .nan
  | .posInf, .fin q => if 0 ≤ q then .posInf else .negInf
  | .negInf, .fin q => if 0 ≤ q then .negInf else .posInf
  | .fin _, .posInf => .fin 0
  | .fin _, .negInf => .fin 0
  | .fin a, .fin b =>
      if b = 0 then (if a = 0 then .nan else if 0 < a then .posInf else .negInf)
      else .fin (a / b)

/-- Squaring, the embedding of powi(2). -/
def fpow2 (x : F) : F := fmul x x

/-- Comparison x less-or-equal y; false whenever an operand is NaN. -/
def fle : F → F → Bool
  | .nan, _ => false
  | _, .nan => false
  | .negInf, _ => true
  | _, .posInf => true
  | .posInf, _ => false
  | _, .negInf => false
  | .fin a, .fin b => decide (a ≤ b)

/-- Comparison x strictly-less y; false whenever an operand is NaN. -/
def flt : F → F → Bool
  | .nan, _ => false
  | _, .nan => false
  | .posInf, _ => false
  | .negInf, .negInf => false
  | .negInf, _ => true
  | _, .posInf => true
  | _, .negInf => false
  | .fin a, .fin b => decide (a < b)

/-- Embedding of std cmp min_by with partial_cmp: the second value is taken
exactly when the first compares greater. -/
def fminBy (a b : F) : F := if flt b a then b else a

/-- Floor of an f64 value. -/
def ffloor : F → F
  | .nan => .nan
  | .negInf => .negInf
  | .posInf => .posInf
  | .fin q => .fin ⌊q⌋

/-- Ceiling of an f64 value. -/
def fceil : F → F
  | .nan => .nan
  | .negInf => .negInf
  | .posInf => .posInf
  | .fin q => .fin ⌈q⌉

/-- Rust saturating cast from f64 to u32: NaN to 0, truncation toward zero,
clamping into the u32 range. -/
def castU32 : F → ℕ
  | .nan => 0
  | .negInf => 0
  | .posInf => 4294967295
  | .fin q => if q < 0 then 0 else min 4294967295 (Int.toNat ⌊q⌋)

/-- Rust saturating cast from f64 to u8: NaN to 0, truncation toward zero,
clamping into the u8 range. -/
def castU8 : F → ℕ
  | .nan => 0
  | .negInf => 0
  | .posInf => 255
  | .fin q => if q < 0 then 0 else min 255 (Int.toNat ⌊q⌋)

/-- Interpretation of the transcendental f64 helpers used by the crate; the
embedding is parameterised by it because these functions are not computable on
exact rationals. -/
structure Ops where
  toRadians : F → F
  sin : F → F
  cos : F → F
  sqrt : F → F

/-- Exact rational value of the f64 constant FRAC_PI_2. -/
def frac_pi_2 : ℚ := 884279719003555 / 562949953421312

/-- Exact rational value of the f64 result of cos at FRAC_PI_2 (which is not
zero in f64; it is about 6.12e-17). -/
def cosFracPi2 : ℚ := 4967757600021511 / 81129638414606681695789005144064

/-- Interpretation of the transcendental helpers that is f64-exact at every
argument the concrete instances below reach: an angle of zero degrees maps to
zero radians; f64 guarantees sin 0 = 0, cos 0 = 1 and sin FRAC_PI_2 = 1, and
cos FRAC_PI_2 is the exact constant above.  The one composite square root
reached, sqrt of 1/4 + (cosFracPi2 / 2) squared, evaluates in f64 to exactly
1/2 because the second addend is below half an ulp of 1/4 and sqrt of 1/4 is
exact.  Elsewhere the interpretation returns NaN; no concrete instance below
reaches those arguments, and the universal theorems hold for every
interpretation. -/
def ops0 : Ops where
  toRadians x := if x = F.fin 0 then F.fin 0 else F.nan
  sin x :=
    if x = F.fin 0 then F.fin 0 else if x = F.fin frac_pi_2 then F.fin 1 else F.nan
  cos x :=
    if x = F.fin 0 then F.fin 1
    else if x = F.fin frac_pi_2 then F.fin cosFracPi2 else F.nan
  sqrt x :=
    if x = F.fin 0 then F.fin 0
    else if x = F.fin (1/4) then F.fin (1/2)
    else if x = F.fin (1/4 + (cosFracPi2 / 2) * (cosFracPi2 / 2)) then F.fin (1/2)
    else F.nan

/-- Axis-aligned integer pixel bounding box (the struct in boundingbox.rs);
u32 coordinates are modelled as naturals. -/
structure BoundingBox where
  x_low : ℕ
  x_high : ℕ
  y_low : ℕ
  y_high : ℕ
deriving DecidableEq

/-- Normalized ellipse (ellipse.rs in the shape module): parameters in the
design square, all finite. -/
structure Ellipse where
  center_x : ℚ
  center_y : ℚ
  major_axis : ℚ
  minor_axis : ℚ
  theta : ℚ
deriving DecidableEq

/-- Ellipse projected onto a canvas (struct EllipseOnCanvas). -/
structure EllipseOnCanvas where
  center_x : F
  center_y : F
  major_axis_squared : F
  minor_axis_squared : F
  theta_sin : F
  theta_cos : F
  bbox : BoundingBox
deriving DecidableEq

/-- Clamp map applied to each raw bounding-box coordinate in the ellipse
projection: negative values to 0, values at or beyond the dimension to the
cast of dimension minus one, otherwise the plain cast. -/
def clampDim (b l : F) : ℕ :=
  if flt b (F.fin 0) then 0
  else if fle l b then castU32 (fsub l (F.fin 1))
  else castU32 b

/-- Embedding of Ellipse::on_canvas: scale by half the smaller dimension,
shift by the half dimensions, precompute the squared axes and the trig values,
and clamp the floor/ceil of the rotated half extents into the canvas. -/
def Ellipse.on_canvas (ops : Ops) (self : Ellipse) (nx ny : ℕ) : EllipseOnCanvas :=
  let theta := ops.toRadians (F.fin self.theta)
  let theta_sin := ops.sin theta
  let theta_cos := ops.cos theta
  let nx_f := F.fin (nx : ℚ)
  let ny_f := F.fin (ny : ℚ)
  let nx_half := fdiv nx_f (F.fin 2)
  let ny_half := fdiv ny_f (F.fin 2)
  let n_min := fminBy nx_half ny_half
  let center_x := fadd (fmul (F.fin self.center_x) n_min) nx_half
  let center_y := fadd (fmul (F.fin self.center_y) n_min) ny_half
  let major_axis := fmul (F.fin self.major_axis) n_min
  let minor_axis := fmul (F.fin self.minor_axis) n_min
  let theta_pi2_sin := ops.sin (fadd theta (F.fin frac_pi_2))
  let theta_pi2_cos := ops.cos (fadd theta (F.fin frac_pi_2))
  let ux := fmul major_axis theta_cos
  let uy := fmul major_axis theta_sin
  let vx := fmul minor_axis theta_pi2_cos
  let vy := fmul minor_axis theta_pi2_sin
  let halfwidth := ops.sqrt (fadd (fpow2 ux) (fpow2 vx))
  let halfheight := ops.sqrt (fadd (fpow2 uy) (fpow2 vy))
  { center_x := center_x
    center_y := center_y
    major_axis_squared := fpow2 major_axis
    minor_axis_squared := fpow2 minor_axis
    theta_sin := theta_sin
    theta_cos := theta_cos
    bbox :=
      { x_low := clampDim (ffloor (fsub center_x halfwidth)) nx_f
        x_high := clampDim (fceil (fadd center_x halfwidth)) nx_f
        y_low := clampDim (ffloor (fsub center_y halfheight)) ny_f
        y_high := clampDim (fceil (fadd center_y halfheight)) ny_f } }

/-- Containment test of EllipseOnCanvas::inside: the rotated-frame quadratic
form compared against one, boundary inclusive. -/
def EllipseOnCanvas.inside (self : EllipseOnCanvas) (x y : F) : Bool :=
  let x_diff := fsub x self.center_x
  let y_diff := fsub y self.center_y
  fle
    (fadd
      (fdiv (fpow2 (fadd (fmul self.theta_cos x_diff) (fmul self.theta_sin y_diff)))
        self.major_axis_squared)
      (fdiv (fpow2 (fsub (fmul self.theta_sin x_diff) (fmul self.theta_cos y_diff)))
        self.minor_axis_squared))
    (F.fin 1)

/-- Normalized rectangle (rectangle.rs): parameters in the design square. -/
structure Rectangle where
  center_x : ℚ
  center_y : ℚ
  width : ℚ
  height : ℚ
  theta : ℚ
deriving DecidableEq

/-- Rectangle projected onto a canvas (struct RectangleOnCanvas). -/
structure RectangleOnCanvas where
  a : F × F
  b : F × F
  ab : F × F
  bc : F × F
  abab : F
  bcbc : F
  bbox : BoundingBox
deriving DecidableEq

/-- Minimum of a nonempty list under the f64 order, first minimum kept, as
Iterator::min_by computes it (NaN on the empty list, unreachable here). -/
def listMinF : List F → F
  | [] => F.nan
  | h :: t => t.foldl (fun acc v => if flt v acc then v else acc) h

/-- Maximum of a nonempty list under the f64 order, last maximum kept, as
Iterator::max_by computes it (NaN on the empty list, unreachable here). -/
def listMaxF : List F → F
  | [] => F.nan
  | h :: t => t.foldl (fun acc v => if fle acc v then v else acc) h

/-- Embedding of the min_max closure in Rectangle::on_canvas.  Note that it
clamps only the floor side at zero and only the ceil side at nx_f, and that
the same nx_f is captured for both the x and the y coordinates, exactly as in
the source. -/
def rect_min_max (nx_f : F) (arr : List F) : ℕ × ℕ :=
  (castU32 (listMinF (arr.map (fun v =>
      let f := ffloor v; if flt f (F.fin 0) then F.fin 0 else f))),
   castU32 (listMaxF (arr.map (fun v =>
      let c := fceil v; if flt nx_f c then nx_f else c))))

/-- Embedding of Rectangle::on_canvas: rotate the four corners in normalized
space, scale and shift them onto the canvas, take the clamped min and max for
the bounding box, and precompute the edge vectors and their squared norms. -/
def Rectangle.on_canvas (ops : Ops) (self : Rectangle) (nx ny : ℕ) : RectangleOnCanvas :=
  let theta := ops.toRadians (F.fin self.theta)
  let theta_sin := ops.sin theta
  let theta_cos := ops.cos theta
  let nx_f := F.fin (nx : ℚ)
  let ny_f := F.fin (ny : ℚ)
  let nx_half := fdiv nx_f (F.fin 2)
  let ny_half := fdiv ny_f (F.fin 2)
  let n_min := fminBy nx_half ny_half
  let width_half := fdiv (F.fin self.width) (F.fin 2)
  let height_half := fdiv (F.fin self.height) (F.fin 2)
  let a_x := fsub (F.fin self.center_x) width_half
  let a_y := fsub (F.fin self.center_y) height_half
  let b_x := fsub (F.fin self.center_x) width_half
  let b_y := fadd (F.fin self.center_y) height_half
  let c_x := fadd (F.fin self.center_x) width_half
  let c_y := fadd (F.fin self.center_y) height_half
  let d_x := fadd (F.fin self.center_x) width_half
  let d_y := fsub (F.fin self.center_y) height_half
  let rot := fun (x y : F) =>
    (fsub (fmul x theta_cos) (fmul y theta_sin), fadd (fmul x theta_sin) (fmul y theta_cos))
  let ss := fun (p : F × F) =>
    (fadd (fmul p.1 n_min) nx_half, fadd (fmul p.2 n_min) ny_half)
  let pa := ss (rot a_x a_y)
  let pb := ss (rot b_x b_y)
  let pc := ss (rot c_x c_y)
  let pd := ss (rot d_x d_y)
  let xmm := rect_min_max nx_f [pa.1, pb.1, pc.1, pd.1]
  let ymm := rect_min_max nx_f [pa.2, pb.2, pc.2, pd.2]
  let ab := (fsub pb.1 pa.1, fsub pb.2 pa.2)
  let bc := (fsub pc.1 pb.1, fsub pc.2 pb.2)
  { a := pa
    b := pb
    ab := ab
    bc := bc
    abab := fadd (fpow2 ab.1) (fpow2 ab.2)
    bcbc := fadd (fpow2 bc.1) (fpow2 bc.2)
    bbox := { x_low := xmm.1, x_high := xmm.2, y_low := ymm.1, y_high := ymm.2 } }

/-- Containment test of RectangleOnCanvas::inside: projections of the point
onto the two edge vectors must lie within the squared edge norms, boundary
inclusive. -/
def RectangleOnCanvas.inside (self : RectangleOnCanvas) (x y : F) : Bool :=
  let am := (fsub x self.a.1, fsub y self.a.2)
  let bm := (fsub x self.b.1, fsub y self.b.2)
  let abam := fadd (fmul self.ab.1 am.1) (fmul self.ab.2 am.2)
  let bcbm := fadd (fmul self.bc.1 bm.1) (fmul self.bc.2 bm.2)
  fle (F.fin 0) abam && fle abam self.abab && fle (F.fin 0) bcbm && fle bcbm self.bcbc

/-- Kind of a normalized shape (enum ShapeKind in shape mod.rs). -/
inductive ShapeKind where
  | ellipse (e : Ellipse) : ShapeKind
  | rectangle (r : Rectangle) : ShapeKind
deriving DecidableEq

/-- Normalized shape with its intensity (struct Shape). -/
structure Shape where
  intensity : ℚ
  kind : ShapeKind
deriving DecidableEq

/-- Constructor Shape::ellipse. -/
def Shape.ellipse (center_x center_y major_axis minor_axis theta intensity : ℚ) : Shape :=
  { intensity := intensity
    kind := ShapeKind.ellipse
      { center_x := center_x, center_y := center_y, major_axis := major_axis
        minor_axis := minor_axis, theta := theta } }

/-- Constructor Shape::rectangle. -/
def Shape.rectangle (center_x center_y width height theta intensity : ℚ) : Shape :=
  { intensity := intensity
    kind := ShapeKind.rectangle
      { center_x := center_x, center_y := center_y, width := width
        height := height, theta := theta } }

/-- Kind of a projected shape (enum ShapeKindOnCanvas). -/
inductive ShapeKindOnCanvas where
  | ellipse (e : EllipseOnCanvas) : ShapeKindOnCanvas
  | rectangle (r : RectangleOnCanvas) : ShapeKindOnCanvas
deriving DecidableEq

/-- Projected shape with its intensity (struct ShapeOnCanvas). -/
structure ShapeOnCanvas where
  intensity : F
  kind : ShapeKindOnCanvas
deriving DecidableEq

/-- Embedding of Shape::on_canvas: project the kind, keep the intensity. -/
def Shape.on_canvas (ops : Ops) (self : Shape) (nx ny : ℕ) : ShapeOnCanvas :=
  { intensity := F.fin self.intensity
    kind := match self.kind with
      | ShapeKind.ellipse e => ShapeKindOnCanvas.ellipse (e.on_canvas ops nx ny)
      | ShapeKind.rectangle r => ShapeKindOnCanvas.rectangle (r.on_canvas ops nx ny) }

/-- Dispatching containment test ShapeOnCanvas::inside. -/
def ShapeOnCanvas.inside (self : ShapeOnCanvas) (x y : F) : Bool :=
  match self.kind with
  | ShapeKindOnCanvas.ellipse e => e.inside x y
  | ShapeKindOnCanvas.rectangle r => r.inside x y

/-- Dispatching bounding box ShapeOnCanvas::bounding_box. -/
def ShapeOnCanvas.bounding_box (self : ShapeOnCanvas) : BoundingBox :=
  match self.kind with
  | ShapeKindOnCanvas.ellipse e => e.bbox
  | ShapeKindOnCanvas.rectangle r => r.bbox

/-- Inclusive integer range low..=high as a list, empty when low exceeds
high, as the Rust inclusive range iterates. -/
def rangeIncl (lo hi : ℕ) : List ℕ := List.range' lo (hi + 1 - lo)

/-- Loop body of the rasterizer function phantom in phantom.rs for one shape:
a scan of its bounding box (inclusive on both ends, x outer and y inner)
adding the intensity at the flipped index where the containment test holds.
Two deliberate modelling notes: the natural subtraction in the index truncates
at zero where the Rust u32 subtraction would panic in debug builds, and
List.set ignores an out-of-range index where the Rust indexing would panic;
both fault conditions are exposed separately through writeEvents below and are
the subject of the safety theorems. -/
def applyShape (nx ny : ℕ) (arr : List F) (shape : ShapeOnCanvas) : List F :=
  let bbox := shape.bounding_box
  (rangeIncl bbox.x_low bbox.x_high).foldl (fun arr2 (x : ℕ) =>
    (rangeIncl bbox.y_low bbox.y_high).foldl (fun arr3 (y : ℕ) =>
      if shape.inside (F.fin (x : ℚ)) (F.fin (y : ℚ)) then
        arr3.set ((ny - y - 1) * nx + x)
          (fadd (arr3.getD ((ny - y - 1) * nx + x) (F.fin 0)) shape.intensity)
      else arr3) arr2) arr

/-- Rasterizer entry: fold the per-shape scan over all shapes, starting from
the zeroed buffer. -/
def phantom (shapes : List ShapeOnCanvas) (nx ny : ℕ) : List F :=
  shapes.foldl (applyShape nx ny) (List.replicate (nx * ny) (F.fin 0))

/-- Pixels visited by the bounding-box scan of one projected shape, in scan
order (x outer, y inner, both ranges inclusive). -/
def scannedPairs (s : ShapeOnCanvas) : List (ℕ × ℕ) :=
  (rangeIncl s.bounding_box.x_low s.bounding_box.x_high).flatMap (fun x =>
    (rangeIncl s.bounding_box.y_low s.bounding_box.y_high).map (fun y => (x, y)))

/-- Pixels at which the rasterizer performs a buffer write: the visited pixels
whose containment test holds, across all shapes in order. -/
def writeEvents (shapes : List ShapeOnCanvas) : List (ℕ × ℕ) :=
  shapes.flatMap (fun s =>
    (scannedPairs s).filter (fun p => s.inside (F.fin (p.1 : ℚ)) (F.fin (p.2 : ℚ))))

/-- Phantom result (struct Phantom in phantom.rs): the pixel buffer and the
lazily cached extrema. -/
structure Phantom where
  data : List F
  minmax : Option (F × F)
deriving DecidableEq

/-- Embedding of Phantom::new: project every shape, then rasterize. -/
def Phantom.new (ops : Ops) (nx ny : ℕ) (shapes : List Shape) : Phantom :=
  { data := phantom (shapes.map (fun s => s.on_canvas ops nx ny)) nx ny
    minmax := none }

/-- Embedding of Phantom::scale: multiply every element by the factor, and
scale the cached extrema componentwise if present (no swap for negative
factors). -/
def Phantom.scale (self : Phantom) (factor : F) : Phantom :=
  { data := self.data.map (fun x => fmul x factor)
    minmax := self.minmax.map (fun mm => (fmul mm.1 factor, fmul mm.2 factor)) }

/-- Fold step of Phantom::extrema: keep the smaller value in the first
component and the larger in the second, with the f64 comparisons of the
source. -/
def extremaStep (acc : F × F) (x : F) : F × F :=
  (if flt x acc.1 then x else acc.1, if flt acc.2 x then x else acc.2)

/-- Embedding of Phantom::extrema: return the cache when present, otherwise
fold over the buffer starting from (infinity, negative infinity) and cache the
result.  Returns the pair together with the updated phantom (the mutation of
the mutable borrow). -/
def Phantom.extrema (self : Phantom) : (F × F) × Phantom :=
  match self.minmax with
  | some mm => (mm, self)
  | none =>
      let mm := self.data.foldl extremaStep (F.posInf, F.negInf)
      (mm, { self with minmax := some mm })

/-- Embedding of Phantom::into_vec_u8: the saturating f64 to u8 cast applied
elementwise. -/
def Phantom.into_vec_u8 (self : Phantom) : List ℕ :=
  self.data.map castU8

namespace Legacy

/-- Ellipse of the legacy top-level pipeline (ellipse.rs at the crate root):
Ellipse::new precomputes the squared axes, the trig values and the normalized
bounding box. -/
structure Ellipse where
  center_x : F
  center_y : F
  major_axis_squared : F
  minor_axis_squared : F
  theta_sin : F
  theta_cos : F
  intensity : F
  bounding_box : F × F × F × F
deriving DecidableEq

/-- Embedding of the legacy Ellipse::new. -/
def Ellipse.new (ops : Ops)
    (center_x center_y major_axis minor_axis theta intensity : ℚ) : Ellipse :=
  let thetaR := ops.toRadians (F.fin theta)
  let theta_sin := ops.sin thetaR
  let theta_cos := ops.cos thetaR
  let theta_pi2_sin := ops.sin (fadd thetaR (F.fin frac_pi_2))
  let theta_pi2_cos := ops.cos (fadd thetaR (F.fin frac_pi_2))
  let ux := fmul (F.fin major_axis) theta_cos
  let uy := fmul (F.fin major_axis) theta_sin
  let vx := fmul (F.fin minor_axis) theta_pi2_cos
  let vy := fmul (F.fin minor_axis) theta_pi2_sin
  let halfwidth := ops.sqrt (fadd (fpow2 ux) (fpow2 vx))
  let halfheight := ops.sqrt (fadd (fpow2 uy) (fpow2 vy))
  { center_x := F.fin center_x
    center_y := F.fin center_y
    major_axis_squared := fpow2 (F.fin major_axis)
    minor_axis_squared := fpow2 (F.fin minor_axis)
    theta_sin := theta_sin
    theta_cos := theta_cos
    intensity := F.fin intensity
    bounding_box :=
      (fsub (F.fin center_x) halfwidth, fsub (F.fin center_y) halfheight,
       fadd (F.fin center_x) halfwidth, fadd (F.fin center_y) halfheight) }

/-- Containment test of the legacy Ellipse::inside (normalized coordinates). -/
def Ellipse.inside (self : Ellipse) (x y : F) : Bool :=
  let y_shifted := fsub y self.center_y
  let x_shifted := fsub x self.center_x
  fle
    (fadd
      (fdiv (fpow2 (fadd (fmul self.theta_cos x_shifted) (fmul self.theta_sin y_shifted)))
        self.major_axis_squared)
      (fdiv (fpow2 (fsub (fmul self.theta_sin x_shifted) (fmul self.theta_cos y_shifted)))
        self.minor_axis_squared))
    (F.fin 1)

/-- Clamp map of the legacy Ellipse::bounding_box.  The n minus 1 subtraction
is natural subtraction here; the legacy clamp computes it on u32 where n = 0
would underflow, a case no concrete instance below reaches. -/
def legacyClamp (x : F) (n : ℕ) : ℕ :=
  if flt x (F.fin 0) then 0
  else if fle (F.fin (n : ℚ)) x then n - 1
  else castU32 x

/-- Embedding of the legacy Ellipse::bounding_box, returning
(x low, y low, x high, y high): scale the normalized box onto the canvas,
floor/ceil, and clamp each coordinate. -/
def Ellipse.bounding_box_on (self : Ellipse) (nx ny : ℕ) : ℕ × ℕ × ℕ × ℕ :=
  let nx_f64 := fdiv (F.fin (nx : ℚ)) (F.fin 2)
  let ny_f64 := fdiv (F.fin (ny : ℚ)) (F.fin 2)
  let n_min := fdiv (F.fin ((min nx ny : ℕ) : ℚ)) (F.fin 2)
  let bx1 := ffloor (fadd (fmul self.bounding_box.1 n_min) nx_f64)
  let by1 := ffloor (fadd (fmul self.bounding_box.2.1 n_min) ny_f64)
  let bx2 := fceil (fadd (fmul self.bounding_box.2.2.1 n_min) nx_f64)
  let by2 := fceil (fadd (fmul self.bounding_box.2.2.2 n_min) ny_f64)
  (legacyClamp bx1 nx, legacyClamp by1 ny, legacyClamp bx2 nx, legacyClamp by2 ny)

/-- Exclusive integer range low..high as a list. -/
def rangeExcl (lo hi : ℕ) : List ℕ := List.range' lo (hi - lo)

/-- Embedding of the legacy top-level phantom function in lib.rs: exclusive
scan ranges over the clamped bounding box, normalized pixel coordinates fed to
the containment test, and the write at the flipped index with the extra minus
one.  The natural subtractions truncate where u32 would underflow; the
concrete instance below stays clear of those cases. -/
def phantom (ellipses : List Ellipse) (nx ny : ℕ) : List F :=
  let nx2 := fdiv (F.fin (nx : ℚ)) (F.fin 2)
  let ny2 := fdiv (F.fin (ny : ℚ)) (F.fin 2)
  let nmin := fdiv (F.fin ((min nx ny : ℕ) : ℚ)) (F.fin 2)
  ellipses.foldl (fun arr e =>
    let bbox := e.bounding_box_on nx ny
    (rangeExcl bbox.1 bbox.2.2.1).foldl (fun arr2 (x : ℕ) =>
      let xi := fdiv (fsub (F.fin (x : ℚ)) nx2) nmin
      (rangeExcl bbox.2.1 bbox.2.2.2).foldl (fun arr3 (y : ℕ) =>
        let yi := fdiv (fsub (F.fin (y : ℚ)) ny2) nmin
        if e.inside xi yi then
          arr3.set ((ny - y - 1) * nx + x - 1)
            (fadd (arr3.getD ((ny - y - 1) * nx + x - 1) (F.fin 0)) e.intensity)
        else arr3) arr2) arr)
    (List.replicate (nx * ny) (F.fin 0))

end Legacy

namespace RealModel

/-- Normalized ellipse over the reals, for the exact-real reading of the
floating-point kernel (rounding not modelled). -/
structure Ellipse where
  center_x : ℝ
  center_y : ℝ
  major_axis : ℝ
  minor_axis : ℝ
  theta : ℝ

/-- Ellipse projected onto a canvas, exact-real reading; only the fields the
containment test reads (the bounding box does not enter claim C9). -/
structure EllipseOnCanvas where
  center_x : ℝ
  center_y : ℝ
  major_axis_squared : ℝ
  minor_axis_squared : ℝ
  theta_sin : ℝ
  theta_cos : ℝ

/-- Exact-real reading of Ellipse::on_canvas: to_radians is multiplication by
pi over 180, the scale is half the smaller dimension, and the squared axes and
trig values are precomputed. -/
noncomputable def Ellipse.on_canvas (self : Ellipse) (nx ny : ℕ) : EllipseOnCanvas :=
  let theta := self.theta * (Real.pi / 180)
  let nx_half := (nx : ℝ) / 2
  let ny_half := (ny : ℝ) / 2
  let n_min := min nx_half ny_half
  { center_x := self.center_x * n_min + nx_half
    center_y := self.center_y * n_min + ny_half
    major_axis_squared := (self.major_axis * n_min) ^ 2
    minor_axis_squared := (self.minor_axis * n_min) ^ 2
    theta_sin := Real.sin theta
    theta_cos := Real.cos theta }

/-- Exact-real reading of EllipseOnCanvas::inside, as a proposition. -/
def EllipseOnCanvas.inside (self : EllipseOnCanvas) (x y : ℝ) : Prop :=
  (self.theta_cos * (x - self.center_x) + self.theta_sin * (y - self.center_y)) ^ 2 /
      self.major_axis_squared +
    (self.theta_sin * (x - self.center_x) - self.theta_cos * (y - self.center_y)) ^ 2 /
      self.minor_axis_squared ≤ 1

end RealModel

/-! Concrete instances used by the counterexamples and witnesses below.  The
rotation angle is zero everywhere, so every f64 value the crate computes on
these inputs is an exact dyadic rational and the model below reproduces the
f64 run exactly. -/

/-- Axis-aligned rectangle covering the whole design square. -/
def wholeRect : Shape := Shape.rectangle 0 0 4 4 0 1

/-- Axis-aligned rectangle reaching beyond the right canvas edge. -/
def midRect : Shape := Shape.rectangle (1/2) 0 2 1 0 1

/-- Axis-aligned rectangle covering the two by two pixel block at the lower
left corner of a 4 by 4 canvas (all corner coordinates integral). -/
def stripRect : Shape := Shape.rectangle (-3/4) (-3/4) (1/2) (1/2) 0 1

/-- Rectangle with width and height both zero. -/
def pointRect : Shape := Shape.rectangle 0 0 0 0 0 1

/-- Legacy circle of radius one half at the origin with intensity one. -/
def legEll : Legacy.Ellipse := Legacy.Ellipse.new ops0 0 0 (1/2) (1/2) 0 1

/-- Uncurried form of the rasterizer loop body for one scanned pixel, used by
the proofs to reason about the double scan as a single fold over the visited
pixel pairs. -/
def writeStep (nx ny : ℕ) (s : ShapeOnCanvas) (a : List F) (p : ℕ × ℕ) : List F :=
  if s.inside (F.fin (p.1 : ℚ)) (F.fin (p.2 : ℚ)) then
    a.set ((ny - p.2 - 1) * nx + p.1)
      (fadd (a.getD ((ny - p.2 - 1) * nx + p.1) (F.fin 0)) s.intensity)
  else a

@[simp] lemma fneg_fin (a : ℚ) : fneg (F.fin a) = F.fin (-a) := rfl

@[simp] lemma fadd_fin (a b : ℚ) : fadd (F.fin a) (F.fin b) = F.fin (a + b) := rfl

@[simp] lemma fsub_fin (a b : ℚ) : fsub (F.fin a) (F.fin b) = F.fin (a + -b) := rfl

@[simp] lemma fmul_fin (a b : ℚ) : fmul (F.fin a) (F.fin b) = F.fin (a * b) := rfl

@[simp] lemma fpow2_fin (a : ℚ) : fpow2 (F.fin a) = F.fin (a * a) := rfl

@[simp] lemma fle_fin (a b : ℚ) : fle (F.fin a) (F.fin b) = decide (a ≤ b) := rfl

@[simp] lemma flt_fin (a b : ℚ) : flt (F.fin a) (F.fin b) = decide (a < b) := rfl

@[simp] lemma fdiv_fin (a b : ℚ) :
    fdiv (F.fin a) (F.fin b) =
      if b = 0 then (if a = 0 then .nan else if 0 < a then .posInf else .negInf)
      else .fin (a / b) := rfl

@[simp] lemma ffloor_fin (q : ℚ) : ffloor (F.fin q) = F.fin ⌊q⌋ := rfl

@[simp] lemma fceil_fin (q : ℚ) : fceil (F.fin q) = F.fin ⌈q⌉ := rfl

@[simp] lemma castU32_fin (q : ℚ) :
    castU32 (F.fin q) = if q < 0 then 0 else min 4294967295 (Int.toNat ⌊q⌋) := rfl

@[simp] lemma castU8_fin (q : ℚ) :
    castU8 (F.fin q) = if q < 0 then 0 else min 255 (Int.toNat ⌊q⌋) := rfl

@[simp] lemma fadd_nan_left (x : F) : fadd F.nan x = F.nan := by cases x <;> rfl

@[simp] lemma fadd_nan_right (x : F) : fadd x F.nan = F.nan := by cases x <;> rfl

@[simp] lemma fmul_nan_left (x : F) : fmul F.nan x = F.nan := by cases x <;> rfl

@[simp] lemma fmul_nan_right (x : F) : fmul x F.nan = F.nan := by cases x <;> rfl

@[simp] lemma fsub_nan_left (x : F) : fsub F.nan x = F.nan := by cases x <;> rfl

@[simp] lemma fsub_nan_right (x : F) : fsub x F.nan = F.nan := by cases x <;> rfl

@[simp] lemma fdiv_nan_left (x : F) : fdiv F.nan x = F.nan := by cases x <;> rfl

@[simp] lemma fdiv_nan_right (x : F) : fdiv x F.nan = F.nan := by cases x <;> rfl

@[simp] lemma fle_nan_left (x : F) : fle F.nan x = false := by cases x <;> rfl

@[simp] lemma fle_nan_right (x : F) : fle x F.nan = false := by cases x <;> rfl

/-- Claim C3: the claim states that for every shape and every canvas the
bounding box satisfies x_low less-or-equal x_high strictly below nx, and the
same in y.  The code violates it: the whole-canvas rectangle projected onto
the 4 by 4 canvas gets the bounding box (0, 4, 0, 4), whose x_high and y_high
equal the dimension 4 instead of being at most 3, because the min_max closure
in Rectangle::on_canvas clamps the ceil side to nx rather than nx minus one
(and reuses nx for the y axis). -/
theorem C3_bbox_not_clamped_within_canvas :
    (Shape.on_canvas ops0 wholeRect 4 4).bounding_box =
      { x_low := 0, x_high := 4, y_low := 0, y_high := 4 } ∧ ¬ (4 < 4) := by
  refine ⟨?_, by omega⟩
  norm_num [Shape.on_canvas, wholeRect, Shape.rectangle, Rectangle.on_canvas,
    ShapeOnCanvas.bounding_box, rect_min_max, listMinF, listMaxF, clampDim, ops0,
    fminBy, fdiv, fadd, fmul, fneg, fsub, fle, flt, ffloor, fceil, castU32, frac_pi_2,
    Int.floor_neg, Int.ceil_neg]
  all_goals simp

/-- Claim C2: the claim states that the bounding-box scan only ever visits
pixels with x below nx and y below ny, so rasterization never faults.  The
code violates it: rasterizing the whole-canvas rectangle on the 4 by 4 canvas
visits pixel (0, 4) with the containment test true, so the write evaluates the
u32 expression (ny - y - 1) * nx + x with y = ny, which underflows (a panic in
debug builds; in release the wrapped index is far out of bounds and the
indexing panics). -/
theorem C2_scan_visits_out_of_canvas :
    (0, 4) ∈ writeEvents [Shape.on_canvas ops0 wholeRect 4 4] ∧ ¬ (4 < 4) := by
  refine ⟨?_, by omega⟩
  norm_num [writeEvents, scannedPairs, rangeIncl, List.range',
    Shape.on_canvas, wholeRect, Shape.rectangle, Rectangle.on_canvas,
    ShapeOnCanvas.bounding_box, ShapeOnCanvas.inside, RectangleOnCanvas.inside,
    rect_min_max, listMinF, listMaxF, clampDim, ops0,
    fminBy, fdiv, fadd, fmul, fneg, fsub, fle, flt, ffloor, fceil, castU32, frac_pi_2,
    Int.floor_neg, Int.ceil_neg]

/-- Claim C4: the claim states that with nx = 0 or ny = 0 rendering returns an
empty buffer and does not fail, for every list of shapes.  The code violates
it for rectangles: the whole-canvas rectangle projected onto the canvas with
nx = 4 and ny = 0 collapses to a point rectangle whose containment test holds
at the visited pixel (2, 0), so the rasterizer attempts a write although the
buffer is empty, and the u32 index expression (ny - y - 1) * nx + x underflows
(ny = 0, y = 0): a panic in debug builds, an out-of-bounds index in release. -/
theorem C4_zero_dims_faulting_write :
    writeEvents [Shape.on_canvas ops0 wholeRect 4 0] = [(2, 0)] ∧
    (phantom [Shape.on_canvas ops0 wholeRect 4 0] 4 0).length = 0 ∧ ¬ (0 < 0) := by
  refine ⟨?_, ?_, by omega⟩
  · norm_num [writeEvents, scannedPairs, rangeIncl, List.range',
      Shape.on_canvas, wholeRect, Shape.rectangle, Rectangle.on_canvas,
      ShapeOnCanvas.bounding_box, ShapeOnCanvas.inside, RectangleOnCanvas.inside,
      rect_min_max, listMinF, listMaxF, clampDim, ops0,
      fminBy, fdiv, fadd, fmul, fneg, fsub, fle, flt, ffloor, fceil, castU32, frac_pi_2,
    Int.floor_neg, Int.ceil_neg]
    all_goals simp
  · norm_num [phantom, applyShape, rangeIncl, List.range',
      Shape.on_canvas, wholeRect, Shape.rectangle, Rectangle.on_canvas,
      ShapeOnCanvas.bounding_box, ShapeOnCanvas.inside, RectangleOnCanvas.inside,
      rect_min_max, listMinF, listMaxF, clampDim, ops0,
      fminBy, fdiv, fadd, fmul, fneg, fsub, fle, flt, ffloor, fceil, castU32, frac_pi_2,
    Int.floor_neg, Int.ceil_neg]

/-- Claim C6, counterexample: the claim states that every zero-size shape,
including a rectangle with width and height zero, has an always-false
containment test.  The code violates it: the zero-size rectangle projected
onto the 4 by 4 canvas reports the point (2, 2) (and in fact every finite
point) as inside, because all four projections in the test are zero and the
test is boundary inclusive. -/
theorem C6_point_rectangle_counterexample :
    (Shape.on_canvas ops0 pointRect 4 4).inside (F.fin 2) (F.fin 2) = true := by
  norm_num [Shape.on_canvas, pointRect, Shape.rectangle, Rectangle.on_canvas,
    ShapeOnCanvas.inside, RectangleOnCanvas.inside,
    rect_min_max, listMinF, listMaxF, clampDim, ops0,
    fminBy, fdiv, fadd, fmul, fneg, fsub, fle, flt, ffloor, fceil, castU32, frac_pi_2,
    Int.floor_neg, Int.ceil_neg]

/-- Claim C10: NaN query coordinates never count a pixel as inside, for both
shape kinds and through the dispatching ShapeOnCanvas::inside: every product
or sum involving the NaN coordinate is NaN, and every comparison against NaN
is false. -/
theorem C10_nan_never_inside (s : ShapeOnCanvas) (x y : F)
    (h : x = F.nan ∨ y = F.nan) : s.inside x y = false := by
  rcases s with ⟨i, k⟩
  rcases h with h | h <;> subst h <;> rcases k with e | r <;>
    simp [ShapeOnCanvas.inside, EllipseOnCanvas.inside, RectangleOnCanvas.inside, fpow2]

/-- Witness for C10 at a concrete projected shape and a NaN x coordinate. -/
theorem C10_nan_never_inside_witness :
    (F.nan = F.nan ∨ (F.fin 0) = F.nan) ∧
      (Shape.on_canvas ops0 wholeRect 4 4).inside F.nan (F.fin 0) = false :=
  ⟨Or.inl rfl, C10_nan_never_inside _ _ _ (Or.inl rfl)⟩

/-- Claim C9: ellipse containment is invariant under adding 180 degrees to the
rotation angle, in the exact-real reading of the kernel: the added half turn
negates both trig values and the quadratic form squares them. -/
theorem C9_half_rotation_invariance (cx cy maj mnr θ : ℝ) (nx ny : ℕ) (x y : ℝ) :
    (RealModel.Ellipse.on_canvas
        { center_x := cx, center_y := cy, major_axis := maj, minor_axis := mnr,
          theta := θ + 180 } nx ny).inside x y ↔
      (RealModel.Ellipse.on_canvas
        { center_x := cx, center_y := cy, major_axis := maj, minor_axis := mnr,
          theta := θ } nx ny).inside x y := by
  simp only [RealModel.Ellipse.on_canvas, RealModel.EllipseOnCanvas.inside]
  have h180 : (θ + 180) * (Real.pi / 180) = θ * (Real.pi / 180) + Real.pi := by
    field_simp
    ring
  rw [h180, Real.sin_add_pi, Real.cos_add_pi]
  have e1 : ∀ c s dx dy : ℝ, (-c * dx + -s * dy) ^ 2 = (c * dx + s * dy) ^ 2 := by
    intro c s dx dy; ring
  have e2 : ∀ c s dx dy : ℝ, (-s * dx - -c * dy) ^ 2 = (s * dx - c * dy) ^ 2 := by
    intro c s dx dy; ring
  rw [e1, e2]
/-- Claim C1: the claim states that every buffer cell equals the sum of the
intensities of the shapes containing its pixel.  The code violates it: the
rectangle midRect reaches beyond the right canvas edge, its bounding box gets
x_high = nx = 4 (the min_max clamp bug), the scan therefore visits the
out-of-canvas column x = 4, and the write for the visited pixel (4, 2) lands
at index 8, which is the buffer cell of pixel (0, 1) - a pixel inside no
shape.  The cell holds 1 instead of the empty sum 0. -/
theorem C1_rasterizer_sum_violated :
    (phantom [Shape.on_canvas ops0 midRect 4 4] 4 4)[(4 - 1 - 1) * 4 + 0]? =
      some (F.fin 1) ∧
    (Shape.on_canvas ops0 midRect 4 4).inside (F.fin 0) (F.fin 1) = false := by
  constructor
  · norm_num [phantom, applyShape, rangeIncl, List.range',
      Shape.on_canvas, midRect, Shape.rectangle, Rectangle.on_canvas,
      ShapeOnCanvas.bounding_box, ShapeOnCanvas.inside, RectangleOnCanvas.inside,
      ShapeOnCanvas.intensity,
      rect_min_max, listMinF, listMaxF, clampDim, ops0,
      fminBy, fdiv, fadd, fmul, fneg, fsub, fle, flt, ffloor, fceil, castU32, frac_pi_2,
      Int.floor_neg, Int.ceil_neg, List.set, List.getD, List.replicate]
  · norm_num [Shape.on_canvas, midRect, Shape.rectangle, Rectangle.on_canvas,
      ShapeOnCanvas.inside, RectangleOnCanvas.inside,
      rect_min_max, listMinF, listMaxF, clampDim, ops0,
      fminBy, fdiv, fadd, fmul, fneg, fsub, fle, flt, ffloor, fceil, castU32, frac_pi_2,
      Int.floor_neg, Int.ceil_neg]

/-- Claim C5, counterexample: the claim states that after scale with a
negative factor a later extrema call still returns the true minimum and
maximum (roles swapped).  The code violates it: it scales the cached pair
componentwise without swapping.  Rendering stripRect gives a buffer of zeros
and ones, extrema caches (0, 1), scaling by -2 turns the cache into (0, -2),
and the next extrema call returns (0, -2) although the buffer now contains -2,
which is smaller than the returned minimum 0. -/
theorem C5_negative_scale_counterexample :
    ((((Phantom.new ops0 4 4 [stripRect]).extrema.2).scale (F.fin (-2))).extrema.1 =
      (F.fin 0, F.fin (-2))) ∧
    F.fin (-2) ∈ ((((Phantom.new ops0 4 4 [stripRect]).extrema.2).scale (F.fin (-2))).data) ∧
    ¬ ((0 : ℚ) ≤ -2) := by
  refine ⟨?_, ?_, by norm_num⟩ <;>
  · norm_num [Phantom.new, Phantom.extrema, extremaStep, Phantom.scale, Option.map,
      phantom, applyShape, rangeIncl, List.range',
      Shape.on_canvas, stripRect, Shape.rectangle, Rectangle.on_canvas,
      ShapeOnCanvas.bounding_box, ShapeOnCanvas.inside, RectangleOnCanvas.inside,
      ShapeOnCanvas.intensity,
      rect_min_max, listMinF, listMaxF, clampDim, ops0,
      fminBy, fdiv, fadd, fmul, fneg, fsub, fle, flt, ffloor, fceil, castU32, frac_pi_2,
      Int.floor_neg, Int.ceil_neg, List.set, List.getD, List.replicate]

set_option maxHeartbeats 2000000 in
/-- Claim C7, counterexample: the claim states that in every
phantom-construction function a write for the tested pixel (x, y) targets the
buffer index (ny - y - 1) * nx + x.  The legacy phantom function in lib.rs
violates it: it writes at (ny - y - 1) * nx + x - 1.  For the circle legEll on
the 4 by 4 canvas the tested pixel (2, 1), normalized to (0, -1/2), is inside
with intensity 1, so under the claim the cell at index (4 - 1 - 1) * 4 + 2 =
10 would hold 1; it holds 0, the contribution having landed at index 9. -/
theorem C7_legacy_shift_counterexample :
    (Legacy.phantom [legEll] 4 4)[10]? = some (F.fin 0) ∧
    (Legacy.phantom [legEll] 4 4)[9]? = some (F.fin 1) ∧
    legEll.inside (F.fin 0) (F.fin (-1/2)) = true ∧
    legEll.intensity = F.fin 1 ∧ (4 - 1 - 1) * 4 + 2 = 10 := by
  refine ⟨?_, ?_, ?_, ?_, by norm_num⟩ <;>
  · norm_num [Legacy.phantom, Legacy.Ellipse.new, Legacy.Ellipse.bounding_box_on,
      Legacy.Ellipse.inside, Legacy.Ellipse.intensity, Legacy.legacyClamp, Legacy.rangeExcl,
      legEll, List.range', ops0, cosFracPi2,
      fminBy, fdiv, fadd, fmul, fneg, fsub, fle, flt, ffloor, fceil, castU32, frac_pi_2,
      Int.floor_neg, Int.ceil_neg, List.set, List.getD, List.replicate]

/-- Claim C8, counterexample: the claim states that into_vec_u8 is a
clamp-free narrowing cast, so some out-of-range value maps to its
truncated/wrapped narrowing.  The code violates it: the Rust float-to-integer
cast saturates.  Scaling the stripRect phantom by 300 puts the value 300 in
four cells; into_vec_u8 maps them to the boundary 255, not to the wrapped
narrowing 300 mod 256 = 44. -/
theorem C8_wrap_counterexample :
    ((Phantom.new ops0 4 4 [stripRect]).scale (F.fin 300)).into_vec_u8 =
      [0, 0, 0, 0, 0, 0, 0, 0, 255, 255, 0, 0, 255, 255, 0, 0] ∧
    (300 : ℤ) % 256 = 44 ∧ (255 : ℕ) ≠ 44 := by
  refine ⟨?_, by norm_num, by norm_num⟩
  norm_num [Phantom.new, Phantom.scale, Phantom.into_vec_u8, Option.map,
    phantom, applyShape, rangeIncl, List.range',
    Shape.on_canvas, stripRect, Shape.rectangle, Rectangle.on_canvas,
    ShapeOnCanvas.bounding_box, ShapeOnCanvas.inside, RectangleOnCanvas.inside,
    ShapeOnCanvas.intensity,
    rect_min_max, listMinF, listMaxF, clampDim, ops0, castU8,
    fminBy, fdiv, fadd, fmul, fneg, fsub, fle, flt, ffloor, fceil, castU32, frac_pi_2,
    Int.floor_neg, Int.ceil_neg, List.set, List.getD, List.replicate]
/-- Saturation of the u8 cast on the high side. -/
lemma castU8_of_gt (q : ℚ) (h : 255 < q) : castU8 (F.fin q) = 255 := by
  have h0 : ¬ q < 0 := by linarith
  have h255 : (255 : ℤ) ≤ ⌊q⌋ := Int.le_floor.2 (by exact_mod_cast h.le)
  have h255n : (255 : ℕ) ≤ (⌊q⌋).toNat := by
    have := Int.toNat_le_toNat h255
    simpa using this
  simp [castU8, h0, Nat.min_eq_left h255n]

/-- Saturation of the u8 cast on the low side. -/
lemma castU8_of_neg (q : ℚ) (h : q < 0) : castU8 (F.fin q) = 0 := by
  simp [castU8, h]

/-- Claim C8, amended: into_vec_u8 narrows by the Rust saturating
float-to-integer cast, so an element above 255 yields the boundary byte 255
and a negative element yields 0 (truncation toward zero in between); no
wrapping occurs. -/
theorem C8_saturating_cast (p : Phantom) (i : ℕ) (q : ℚ) (hq : 255 < q)
    (hget : p.data[i]? = some (F.fin q)) :
    (Phantom.into_vec_u8 p)[i]? = some 255 ∧
    ∀ (j : ℕ) (r : ℚ), p.data[j]? = some (F.fin r) → r < 0 →
      (Phantom.into_vec_u8 p)[j]? = some 0 := by
  constructor
  · rw [Phantom.into_vec_u8, List.getElem?_map, hget]
    simp [castU8_of_gt q hq]
  · intro j r hgj hr
    rw [Phantom.into_vec_u8, List.getElem?_map, hgj]
    simp [castU8_of_neg r hr]

/-- Witness for C8 at a concrete phantom holding 300 and -1. -/
theorem C8_saturating_cast_witness :
    (255 : ℚ) < 300 ∧
      (Phantom.into_vec_u8 { data := [F.fin 300, F.fin (-1)], minmax := none })[0]? =
        some 255 :=
  ⟨by norm_num,
    (C8_saturating_cast { data := [F.fin 300, F.fin (-1)], minmax := none } 0 300
      (by norm_num) rfl).1⟩
/-- Squares in F are NaN, infinite, or nonnegative finite. -/
lemma fpow2_cases (t : F) :
    fpow2 t = F.nan ∨ fpow2 t = F.posInf ∨ ∃ q : ℚ, 0 ≤ q ∧ fpow2 t = F.fin q := by
  cases t with
  | nan => exact Or.inl rfl
  | negInf => exact Or.inr (Or.inl rfl)
  | posInf => exact Or.inr (Or.inl rfl)
  | fin q => exact Or.inr (Or.inr ⟨q * q, mul_self_nonneg q, rfl⟩)

/-- Dividing a NaN, infinite, or nonnegative value by the zero of F yields NaN
or positive infinity, never a finite value. -/
lemma fdiv_zero_bad (a : F)
    (ha : a = F.nan ∨ a = F.posInf ∨ ∃ q : ℚ, 0 ≤ q ∧ a = F.fin q) :
    fdiv a (F.fin 0) = F.nan ∨ fdiv a (F.fin 0) = F.posInf := by
  rcases ha with h | h | ⟨q, hq, h⟩ <;> subst h
  · exact Or.inl rfl
  · exact Or.inr (by simp [fdiv])
  · by_cases hq0 : q = 0
    · exact Or.inl (by simp [fdiv, hq0])
    · exact Or.inr (by simp [fdiv, hq0, lt_of_le_of_ne hq (Ne.symm hq0)])

/-- Quotients of NaN-or-infinite-or-nonnegative values stay in that class. -/
lemma fdiv_nonneg_cases (a b : F)
    (ha : a = F.nan ∨ a = F.posInf ∨ ∃ q : ℚ, 0 ≤ q ∧ a = F.fin q)
    (hb : b = F.nan ∨ b = F.posInf ∨ ∃ q : ℚ, 0 ≤ q ∧ b = F.fin q) :
    fdiv a b = F.nan ∨ fdiv a b = F.posInf ∨ ∃ q : ℚ, 0 ≤ q ∧ fdiv a b = F.fin q := by
  rcases ha with h | h | ⟨p, hp, h⟩ <;> subst h
  · exact Or.inl (by simp)
  · rcases hb with h | h | ⟨q, hq, h⟩ <;> subst h
    · exact Or.inl (by simp)
    · exact Or.inl rfl
    · exact Or.inr (Or.inl (by simp [fdiv, hq]))
  · rcases hb with h | h | ⟨q, hq, h⟩ <;> subst h
    · exact Or.inl (by simp)
    · exact Or.inr (Or.inr ⟨0, le_refl 0, rfl⟩)
    · by_cases hq0 : q = 0
      · by_cases hp0 : p = 0
        · exact Or.inl (by simp [fdiv, hq0, hp0])
        · exact Or.inr (Or.inl
            (by simp [fdiv, hq0, hp0, lt_of_le_of_ne hp (Ne.symm hp0)]))
      · exact Or.inr (Or.inr ⟨p / q, div_nonneg hp hq, by simp [fdiv, hq0]⟩)

/-- Adding a NaN-or-positive-infinite value on the left of a value in the
nonnegative class yields NaN or positive infinity. -/
lemma fadd_bad_left (a b : F) (ha : a = F.nan ∨ a = F.posInf)
    (hb : b = F.nan ∨ b = F.posInf ∨ ∃ q : ℚ, 0 ≤ q ∧ b = F.fin q) :
    fadd a b = F.nan ∨ fadd a b = F.posInf := by
  rcases ha with h | h <;> subst h
  · exact Or.inl (by simp)
  · rcases hb with h | h | ⟨q, _, h⟩ <;> subst h
    · exact Or.inl (by simp)
    · exact Or.inr rfl
    · exact Or.inr rfl

/-- Adding a NaN-or-positive-infinite value on the right of a value in the
nonnegative class yields NaN or positive infinity. -/
lemma fadd_bad_right (a b : F)
    (ha : a = F.nan ∨ a = F.posInf ∨ ∃ q : ℚ, 0 ≤ q ∧ a = F.fin q)
    (hb : b = F.nan ∨ b = F.posInf) :
    fadd a b = F.nan ∨ fadd a b = F.posInf := by
  rcases hb with h | h <;> subst h
  · exact Or.inl (by simp)
  · rcases ha with h | h | ⟨q, _, h⟩ <;> subst h
    · exact Or.inl (by simp)
    · exact Or.inr rfl
    · exact Or.inr rfl

/-- NaN and positive infinity both fail the comparison against one. -/
lemma fle_one_of_bad (v : F) (h : v = F.nan ∨ v = F.posInf) :
    fle v (F.fin 1) = false := by
  rcases h with h | h <;> subst h <;> rfl

/-- Quadratic form with a zero first denominator compares false against one. -/
lemma fle_sum_div_zero_left (t1 t2 d2 : F) :
    fle (fadd (fdiv (fpow2 t1) (F.fin 0)) (fdiv (fpow2 t2) (fpow2 d2))) (F.fin 1) =
      false :=
  fle_one_of_bad _
    (fadd_bad_left _ _ (fdiv_zero_bad _ (fpow2_cases t1))
      (fdiv_nonneg_cases _ _ (fpow2_cases t2) (fpow2_cases d2)))

/-- Quadratic form with a zero second denominator compares false against one. -/
lemma fle_sum_div_zero_right (t1 t2 d1 : F) :
    fle (fadd (fdiv (fpow2 t1) (fpow2 d1)) (fdiv (fpow2 t2) (F.fin 0))) (F.fin 1) =
      false :=
  fle_one_of_bad _
    (fadd_bad_right _ _ (fdiv_nonneg_cases _ _ (fpow2_cases t1) (fpow2_cases d1))
      (fdiv_zero_bad _ (fpow2_cases t2)))

/-- Scale factor n_min of the projection is always a finite value. -/
lemma fminBy_div2_fin (a b : ℚ) :
    ∃ r : ℚ, fminBy (fdiv (F.fin a) (F.fin 2)) (fdiv (F.fin b) (F.fin 2)) = F.fin r := by
  have h2 : (2 : ℚ) ≠ 0 := by norm_num
  refine ⟨if b / 2 < a / 2 then b / 2 else a / 2, ?_⟩
  simp only [fdiv_fin, if_neg h2, fminBy, flt_fin, decide_eq_true_eq]
  split_ifs with h
  · rfl
  · rfl

/-- Ellipse containment is always false when the major denominator vanishes. -/
lemma ellipse_inside_false_of_major (E : EllipseOnCanvas)
    (hmaj : E.major_axis_squared = F.fin 0)
    (hmin : ∃ d, E.minor_axis_squared = fpow2 d) (x y : F) :
    E.inside x y = false := by
  rcases hmin with ⟨d, hd⟩
  unfold EllipseOnCanvas.inside
  rw [hmaj, hd]
  exact fle_sum_div_zero_left _ _ _

/-- Ellipse containment is always false when the minor denominator vanishes. -/
lemma ellipse_inside_false_of_minor (E : EllipseOnCanvas)
    (hmin : E.minor_axis_squared = F.fin 0)
    (hmaj : ∃ d, E.major_axis_squared = fpow2 d) (x y : F) :
    E.inside x y = false := by
  rcases hmaj with ⟨d, hd⟩
  unfold EllipseOnCanvas.inside
  rw [hmin, hd]
  exact fle_sum_div_zero_right _ _ _

/-- Claim C6, amended: an ellipse with a zero major or minor axis projects to
an always-false containment test on every canvas and under every
interpretation of the transcendental helpers (the vanishing squared axis makes
the quadratic form NaN or infinite, never at most one); but the degenerate
rectangle with width and height zero projects to a containment test that is
true at every finite point, not false. -/
theorem C6_degenerate_containment :
    (∀ (ops : Ops) (e : Ellipse) (nx ny : ℕ), e.major_axis = 0 ∨ e.minor_axis = 0 →
      ∀ x y : F, (e.on_canvas ops nx ny).inside x y = false) ∧
    (∀ qx qy : ℚ, (Shape.on_canvas ops0 pointRect 4 4).inside (F.fin qx) (F.fin qy) =
      true) := by
  constructor
  · intro ops e nx ny hdeg x y
    obtain ⟨r, hr⟩ := fminBy_div2_fin (nx : ℚ) (ny : ℚ)
    have hmaj : (e.on_canvas ops nx ny).major_axis_squared =
        fpow2 (fmul (F.fin e.major_axis)
          (fminBy (fdiv (F.fin (nx : ℚ)) (F.fin 2)) (fdiv (F.fin (ny : ℚ)) (F.fin 2)))) :=
      rfl
    have hmin : (e.on_canvas ops nx ny).minor_axis_squared =
        fpow2 (fmul (F.fin e.minor_axis)
          (fminBy (fdiv (F.fin (nx : ℚ)) (F.fin 2)) (fdiv (F.fin (ny : ℚ)) (F.fin 2)))) :=
      rfl
    rcases hdeg with h0 | h0
    · refine ellipse_inside_false_of_major _ ?_ ⟨_, hmin⟩ x y
      rw [hmaj, hr, h0]
      simp
    · refine ellipse_inside_false_of_minor _ ?_ ⟨_, hmaj⟩ x y
      rw [hmin, hr, h0]
      simp
  · intro qx qy
    norm_num [Shape.on_canvas, pointRect, Shape.rectangle, Rectangle.on_canvas,
      ShapeOnCanvas.inside, RectangleOnCanvas.inside,
      rect_min_max, listMinF, listMaxF, clampDim, ops0,
      fminBy, fdiv, fadd, fmul, fneg, fsub, fle, flt, ffloor, fceil, castU32, frac_pi_2,
      Int.floor_neg, Int.ceil_neg]

/-- Witness for C6 at a concrete degenerate ellipse and query point. -/
theorem C6_degenerate_containment_witness :
    ((0 : ℚ) = 0 ∨ (1 : ℚ) = 0) ∧
      (Ellipse.on_canvas ops0
        { center_x := 0, center_y := 0, major_axis := 0, minor_axis := 1, theta := 0 }
        4 4).inside (F.fin 0) (F.fin 0) = false :=
  ⟨Or.inl rfl,
    C6_degenerate_containment.1 ops0
      { center_x := 0, center_y := 0, major_axis := 0, minor_axis := 1, theta := 0 }
      4 4 (Or.inl rfl) (F.fin 0) (F.fin 0)⟩
/-- Left fold of min is below its initial value. -/
lemma foldl_min_le_init : ∀ (l : List ℚ) (a : ℚ), l.foldl min a ≤ a := by
  intro l
  induction l with
  | nil => intro a; simp
  | cons h t ih =>
      intro a
      calc t.foldl min (min a h) ≤ min a h := ih _
        _ ≤ a := min_le_left _ _

/-- Left fold of min is below every list element. -/
lemma foldl_min_le_mem : ∀ (l : List ℚ) (a z : ℚ), z ∈ l → l.foldl min a ≤ z := by
  intro l
  induction l with
  | nil => intro a z hz; cases hz
  | cons h t ih =>
      intro a z hz
      rcases List.mem_cons.1 hz with rfl | hz
      · calc t.foldl min (min a z) ≤ min a z := foldl_min_le_init _ _
          _ ≤ z := min_le_right _ _
      · exact ih _ z hz

/-- Left fold of min is the initial value or a list element. -/
lemma foldl_min_mem_or : ∀ (l : List ℚ) (a : ℚ), l.foldl min a = a ∨ l.foldl min a ∈ l := by
  intro l
  induction l with
  | nil => intro a; exact Or.inl rfl
  | cons h t ih =>
      intro a
      rcases ih (min a h) with heq | hmem
      · rcases min_choice a h with hc | hc
        · exact Or.inl (by rw [List.foldl_cons, heq, hc])
        · exact Or.inr (by rw [List.foldl_cons, heq, hc]; exact List.mem_cons_self _ _)
      · exact Or.inr (List.mem_cons_of_mem _ hmem)

/-- Left fold of max is above its initial value. -/
lemma foldl_max_ge_init : ∀ (l : List ℚ) (a : ℚ), a ≤ l.foldl max a := by
  intro l
  induction l with
  | nil => intro a; simp
  | cons h t ih =>
      intro a
      calc a ≤ max a h := le_max_left _ _
        _ ≤ t.foldl max (max a h) := ih _

/-- Left fold of max is above every list element. -/
lemma foldl_max_ge_mem : ∀ (l : List ℚ) (a z : ℚ), z ∈ l → z ≤ l.foldl max a := by
  intro l
  induction l with
  | nil => intro a z hz; cases hz
  | cons h t ih =>
      intro a z hz
      rcases List.mem_cons.1 hz with rfl | hz
      · calc z ≤ max a z := le_max_right _ _
          _ ≤ t.foldl max (max a z) := foldl_max_ge_init _ _
      · exact ih _ z hz

/-- Left fold of max is the initial value or a list element. -/
lemma foldl_max_mem_or : ∀ (l : List ℚ) (a : ℚ), l.foldl max a = a ∨ l.foldl max a ∈ l := by
  intro l
  induction l with
  | nil => intro a; exact Or.inl rfl
  | cons h t ih =>
      intro a
      rcases ih (max a h) with heq | hmem
      · rcases max_choice a h with hc | hc
        · exact Or.inl (by rw [List.foldl_cons, heq, hc])
        · exact Or.inr (by rw [List.foldl_cons, heq, hc]; exact List.mem_cons_self _ _)
      · exact Or.inr (List.mem_cons_of_mem _ hmem)

/-- On buffers of finite values the extrema fold computes the running minimum
and maximum exactly. -/
lemma extrema_foldl_fin : ∀ (l : List ℚ) (a b : ℚ),
    (l.map F.fin).foldl extremaStep (F.fin a, F.fin b) =
      (F.fin (l.foldl min a), F.fin (l.foldl max b)) := by
  intro l
  induction l with
  | nil => intro a b; rfl
  | cons h t ih =>
      intro a b
      have e1 : (if h < a then F.fin h else F.fin a) = F.fin (min a h) := by
        rcases lt_or_le h a with hh | hh
        · simp [hh, min_eq_right hh.le]
        · simp [not_lt.2 hh, min_eq_left hh]
      have e2 : (if b < h then F.fin h else F.fin b) = F.fin (max b h) := by
        rcases lt_or_le b h with hh | hh
        · simp [hh, max_eq_right hh.le]
        · simp [not_lt.2 hh, max_eq_left hh]
      have h1 : extremaStep (F.fin a, F.fin b) (F.fin h) = (F.fin (min a h), F.fin (max b h)) := by
        simp only [extremaStep, flt_fin, decide_eq_true_eq, e1, e2]
      rw [List.map_cons, List.foldl_cons, h1, ih]
      rfl

/-- First call of extrema on an uncached phantom with a nonempty finite
buffer: the fold starting from the infinities lands on the running minimum and
maximum of the values, and the pair is cached. -/
lemma extrema_none_eq (l : List ℚ) (q : ℚ) :
    Phantom.extrema { data := (q :: l).map F.fin, minmax := none } =
      ((F.fin (l.foldl min q), F.fin (l.foldl max q)),
       { data := (q :: l).map F.fin,
         minmax := some (F.fin (l.foldl min q), F.fin (l.foldl max q)) }) := by
  have h0 : extremaStep (F.posInf, F.negInf) (F.fin q) = (F.fin q, F.fin q) := rfl
  simp only [Phantom.extrema, List.map_cons, List.foldl_cons, h0, extrema_foldl_fin]

/-- Claim C5, amended: extrema on a nonempty finite buffer computes the exact
minimum and maximum on the first call, caches them, and returns the same pair
on a repeated call; after scale by a nonnegative finite factor the cached pair
is still the exact minimum and maximum of the scaled buffer.  (For a negative
factor the code scales the cached pair without swapping, so the returned pair
is the reversed pair of the true extrema; see the counterexample.) -/
theorem C5_extrema_cache_correct (l : List ℚ) (q : ℚ) (c : ℚ) (hc : 0 ≤ c) :
    (Phantom.extrema { data := (q :: l).map F.fin, minmax := none }).1 =
        (F.fin (l.foldl min q), F.fin (l.foldl max q)) ∧
    (l.foldl min q ∈ q :: l ∧ ∀ z ∈ q :: l, l.foldl min q ≤ z) ∧
    (l.foldl max q ∈ q :: l ∧ ∀ z ∈ q :: l, z ≤ l.foldl max q) ∧
    ((Phantom.extrema { data := (q :: l).map F.fin, minmax := none }).2.extrema).1 =
        (F.fin (l.foldl min q), F.fin (l.foldl max q)) ∧
    (((Phantom.extrema { data := (q :: l).map F.fin, minmax := none }).2.scale
        (F.fin c)).extrema).1 =
        (F.fin (l.foldl min q * c), F.fin (l.foldl max q * c)) ∧
    ((Phantom.extrema { data := (q :: l).map F.fin, minmax := none }).2.scale
        (F.fin c)).data = ((q :: l).map (fun v => v * c)).map F.fin ∧
    (∀ z ∈ (q :: l).map (fun v => v * c),
        l.foldl min q * c ≤ z ∧ z ≤ l.foldl max q * c) ∧
    (l.foldl min q * c ∈ (q :: l).map (fun v => v * c) ∧
        l.foldl max q * c ∈ (q :: l).map (fun v => v * c)) := by
  have hminmem : l.foldl min q ∈ q :: l := by
    rcases foldl_min_mem_or l q with h | h
    · rw [h]; exact List.mem_cons_self _ _
    · exact List.mem_cons_of_mem _ h
  have hmaxmem : l.foldl max q ∈ q :: l := by
    rcases foldl_max_mem_or l q with h | h
    · rw [h]; exact List.mem_cons_self _ _
    · exact List.mem_cons_of_mem _ h
  have hminle : ∀ z ∈ q :: l, l.foldl min q ≤ z := by
    intro z hz
    rcases List.mem_cons.1 hz with rfl | hz
    · exact foldl_min_le_init _ _
    · exact foldl_min_le_mem _ _ _ hz
  have hmaxge : ∀ z ∈ q :: l, z ≤ l.foldl max q := by
    intro z hz
    rcases List.mem_cons.1 hz with rfl | hz
    · exact foldl_max_ge_init _ _
    · exact foldl_max_ge_mem _ _ _ hz
  refine ⟨?_, ⟨hminmem, hminle⟩, ⟨hmaxmem, hmaxge⟩, ?_, ?_, ?_, ?_, ?_, ?_⟩
  · rw [extrema_none_eq]
  · rw [extrema_none_eq]
    rfl
  · rw [extrema_none_eq]
    simp [Phantom.scale, Phantom.extrema, Option.map]
  · rw [extrema_none_eq]
    simp [Phantom.scale, List.map_map, Function.comp]
  · intro z hz
    rcases List.mem_map.1 hz with ⟨w, hw, rfl⟩
    exact ⟨mul_le_mul_of_nonneg_right (hminle w hw) hc,
      mul_le_mul_of_nonneg_right (hmaxge w hw) hc⟩
  · exact List.mem_map.2 ⟨_, hminmem, rfl⟩
  · exact List.mem_map.2 ⟨_, hmaxmem, rfl⟩

/-- Witness for C5 at the concrete buffer holding 1 and 0 and the factor 2. -/
theorem C5_extrema_cache_correct_witness :
    (0 : ℚ) ≤ 2 ∧
      (Phantom.extrema { data := ((1 : ℚ) :: [0]).map F.fin, minmax := none }).1 =
        (F.fin (List.foldl min 1 [0]), F.fin (List.foldl max 1 [0])) :=
  ⟨by norm_num, (C5_extrema_cache_correct [0] 1 2 (by norm_num)).1⟩
/-- Nested fold over two index ranges equals a single fold over the pair list
in scan order. -/
lemma foldl_flatMap_pairs {α : Type} (g : α → ℕ → ℕ → α) (xs ys : List ℕ) :
    ∀ a : α, xs.foldl (fun a2 x => ys.foldl (fun a3 y => g a3 x y) a2) a =
      (xs.flatMap (fun x => ys.map (fun y => (x, y)))).foldl
        (fun a2 p => g a2 p.1 p.2) a := by
  induction xs with
  | nil => intro a; rfl
  | cons h t ih =>
      intro a
      rw [List.foldl_cons, List.flatMap_cons, List.foldl_append, List.foldl_map, ih]

/-- The per-shape scan is the fold of writeStep over the scanned pixels. -/
lemma applyShape_eq (nx ny : ℕ) (arr : List F) (s : ShapeOnCanvas) :
    applyShape nx ny arr s = (scannedPairs s).foldl (writeStep nx ny s) arr :=
  foldl_flatMap_pairs _ _ _ arr

/-- Membership in the inclusive scan range. -/
lemma mem_rangeIncl (m lo hi : ℕ) : m ∈ rangeIncl lo hi ↔ lo ≤ m ∧ m ≤ hi := by
  simp only [rangeIncl, List.mem_range'_1]
  omega

/-- The scanned pixels of a shape are exactly the bounding-box pixels. -/
lemma mem_scannedPairs (s : ShapeOnCanvas) (x y : ℕ) :
    (x, y) ∈ scannedPairs s ↔
      s.bounding_box.x_low ≤ x ∧ x ≤ s.bounding_box.x_high ∧
      s.bounding_box.y_low ≤ y ∧ y ≤ s.bounding_box.y_high := by
  simp only [scannedPairs, List.mem_flatMap, List.mem_map, Prod.mk.injEq, mem_rangeIncl]
  constructor
  · rintro ⟨a, ⟨h1, h2⟩, b, ⟨h3, h4⟩, rfl, rfl⟩
    exact ⟨h1, h2, h3, h4⟩
  · rintro ⟨h1, h2, h3, h4⟩
    exact ⟨x, ⟨h1, h2⟩, y, ⟨h3, h4⟩, rfl, rfl⟩

/-- The scan visits each pixel at most once. -/
lemma scannedPairs_nodup (s : ShapeOnCanvas) : (scannedPairs s).Nodup := by
  have h : scannedPairs s =
      (rangeIncl s.bounding_box.x_low s.bounding_box.x_high) ×ˢ
        (rangeIncl s.bounding_box.y_low s.bounding_box.y_high) := rfl
  rw [h]
  exact List.Nodup.product (List.nodup_range' _ _) (List.nodup_range' _ _)

/-- The flipped pixel index stays below the buffer size. -/
lemma idx_lt (nx ny x y : ℕ) (hx : x < nx) (hy : y < ny) :
    (ny - y - 1) * nx + x < nx * ny := by
  have h1 : ny - y - 1 + 1 ≤ ny := by omega
  calc (ny - y - 1) * nx + x < (ny - y - 1) * nx + nx := by omega
    _ = (ny - y - 1 + 1) * nx := by ring
    _ ≤ ny * nx := Nat.mul_le_mul_right _ h1
    _ = nx * ny := Nat.mul_comm _ _

/-- The flipped pixel index is injective on canvas pixels. -/
lemma idx_inj (nx ny x1 y1 x2 y2 : ℕ) (hx1 : x1 < nx) (hy1 : y1 < ny)
    (hx2 : x2 < nx) (hy2 : y2 < ny)
    (h : (ny - y1 - 1) * nx + x1 = (ny - y2 - 1) * nx + x2) : x1 = x2 ∧ y1 = y2 := by
  have e1 : ((ny - y1 - 1) * nx + x1) % nx = x1 := by
    rw [Nat.mul_comm, Nat.mul_add_mod, Nat.mod_eq_of_lt hx1]
  have e2 : ((ny - y2 - 1) * nx + x2) % nx = x2 := by
    rw [Nat.mul_comm, Nat.mul_add_mod, Nat.mod_eq_of_lt hx2]
  have hx : x1 = x2 := by rw [← e1, h, e2]
  subst hx
  have hmul : (ny - y1 - 1) * nx = (ny - y2 - 1) * nx := by omega
  have hrow : ny - y1 - 1 = ny - y2 - 1 :=
    Nat.eq_of_mul_eq_mul_right (by omega) hmul
  exact ⟨rfl, by omega⟩

/-- One writeStep never changes the buffer length. -/
lemma writeStep_length (nx ny : ℕ) (s : ShapeOnCanvas) (a : List F) (p : ℕ × ℕ) :
    (writeStep nx ny s a p).length = a.length := by
  unfold writeStep
  split
  · exact List.length_set _ _ _
  · rfl

/-- A fold of writeStep never changes the buffer length. -/
lemma foldl_writeStep_length (nx ny : ℕ) (s : ShapeOnCanvas) :
    ∀ (ps : List (ℕ × ℕ)) (a : List F),
      (ps.foldl (writeStep nx ny s) a).length = a.length := by
  intro ps
  induction ps with
  | nil => intro a; rfl
  | cons p t ih => intro a; rw [List.foldl_cons, ih, writeStep_length]

/-- Content of one buffer cell after folding writeStep over a duplicate-free
list of in-canvas pixels: the cell of pixel (x, y) receives one intensity
increment exactly when (x, y) is in the list and inside the shape, and keeps
its previous value otherwise. -/
lemma foldl_writeStep_get (nx ny : ℕ) (s : ShapeOnCanvas) (x y : ℕ)
    (hx : x < nx) (hy : y < ny) :
    ∀ (ps : List (ℕ × ℕ)), ps.Nodup → (∀ p ∈ ps, p.1 < nx ∧ p.2 < ny) →
    ∀ arr : List F, arr.length = nx * ny →
    (ps.foldl (writeStep nx ny s) arr)[(ny - y - 1) * nx + x]? =
      if (x, y) ∈ ps ∧ s.inside (F.fin (x : ℚ)) (F.fin (y : ℚ)) = true then
        some (fadd (arr.getD ((ny - y - 1) * nx + x) (F.fin 0)) s.intensity)
      else arr[(ny - y - 1) * nx + x]? := by
  intro ps
  induction ps with
  | nil =>
      intro _ _ arr _
      simp
  | cons p t ih =>
      obtain ⟨px, py⟩ := p
      intro hnd hb arr hlen
      have hnd' : t.Nodup := (List.nodup_cons.1 hnd).2
      have hpt : (px, py) ∉ t := (List.nodup_cons.1 hnd).1
      have hbp := hb (px, py) (List.mem_cons_self _ _)
      have hbt : ∀ r ∈ t, r.1 < nx ∧ r.2 < ny :=
        fun r hr => hb r (List.mem_cons_of_mem _ hr)
      rw [List.foldl_cons]
      by_cases hpq : (px, py) = (x, y)
      · injection hpq with h1 h2
        subst h1
        subst h2
        by_cases hin : s.inside (F.fin (px : ℚ)) (F.fin (py : ℚ)) = true
        · have hstep : writeStep nx ny s arr (px, py) =
              arr.set ((ny - py - 1) * nx + px)
                (fadd (arr.getD ((ny - py - 1) * nx + px) (F.fin 0)) s.intensity) := by
            unfold writeStep
            rw [if_pos hin]
          have hlen1 : (writeStep nx ny s arr (px, py)).length = nx * ny := by
            rw [writeStep_length]; exact hlen
          rw [ih hnd' hbt _ hlen1]
          rw [if_neg (fun hc => hpt hc.1), if_pos ⟨List.mem_cons_self _ _, hin⟩, hstep]
          exact List.getElem?_set_self (by rw [hlen]; exact idx_lt nx ny px py hbp.1 hbp.2)
        · have hstep : writeStep nx ny s arr (px, py) = arr := by
            unfold writeStep
            rw [if_neg hin]
          rw [hstep, ih hnd' hbt arr hlen]
          rw [if_neg (fun hc => hin hc.2), if_neg (fun hc => hin hc.2)]
      · have hne : (ny - py - 1) * nx + px ≠ (ny - y - 1) * nx + x := by
          intro he
          rcases idx_inj nx ny px py x y hbp.1 hbp.2 hx hy he with ⟨he1, he2⟩
          exact hpq (by rw [he1, he2])
        have harr1get : (writeStep nx ny s arr (px, py))[(ny - y - 1) * nx + x]? =
            arr[(ny - y - 1) * nx + x]? := by
          unfold writeStep
          split
          · exact List.getElem?_set_ne hne
          · rfl
        have harr1len : (writeStep nx ny s arr (px, py)).length = nx * ny := by
          rw [writeStep_length]; exact hlen
        rw [ih hnd' hbt _ harr1len]
        have hgetD : (writeStep nx ny s arr (px, py)).getD ((ny - y - 1) * nx + x)
            (F.fin 0) = arr.getD ((ny - y - 1) * nx + x) (F.fin 0) := by
          rw [List.getD_eq_getElem?_getD, List.getD_eq_getElem?_getD, harr1get]
        rw [hgetD, harr1get]
        by_cases hm : (x, y) ∈ t ∧ s.inside (F.fin (x : ℚ)) (F.fin (y : ℚ)) = true
        · rw [if_pos hm, if_pos ⟨List.mem_cons_of_mem _ hm.1, hm.2⟩]
        · rw [if_neg hm, if_neg]
          rintro ⟨hc1, hc2⟩
          rcases List.mem_cons.1 hc1 with he | hmem
          · exact hpq he.symm
          · exact hm ⟨hmem, hc2⟩

/-- Buffer content after rasterizing a list of shapes whose bounding boxes lie
inside the canvas, starting from any buffer of the right length: the cell of
pixel (x, y) accumulates, in shape order, the intensities of the shapes whose
bounding box contains the pixel and whose containment test holds there. -/
lemma phantom_foldl_aux (nx ny x y : ℕ) (hx : x < nx) (hy : y < ny) :
    ∀ (shapes : List ShapeOnCanvas) (arr : List F), arr.length = nx * ny →
    (∀ s ∈ shapes, s.bounding_box.x_high < nx ∧ s.bounding_box.y_high < ny) →
    (shapes.foldl (applyShape nx ny) arr).length = nx * ny ∧
    (shapes.foldl (applyShape nx ny) arr).getD ((ny - y - 1) * nx + x) (F.fin 0) =
      shapes.foldl (fun acc s =>
        if (s.bounding_box.x_low ≤ x ∧ x ≤ s.bounding_box.x_high ∧
            s.bounding_box.y_low ≤ y ∧ y ≤ s.bounding_box.y_high) ∧
            s.inside (F.fin (x : ℚ)) (F.fin (y : ℚ)) = true
        then fadd acc s.intensity else acc)
        (arr.getD ((ny - y - 1) * nx + x) (F.fin 0)) := by
  intro shapes
  induction shapes with
  | nil => intro arr hlen _; exact ⟨hlen, rfl⟩
  | cons s t ih =>
      intro arr hlen hb
      have hbs := hb s (List.mem_cons_self _ _)
      have hbt : ∀ r ∈ t, r.bounding_box.x_high < nx ∧ r.bounding_box.y_high < ny :=
        fun r hr => hb r (List.mem_cons_of_mem _ hr)
      have hbounds : ∀ p ∈ scannedPairs s, p.1 < nx ∧ p.2 < ny := by
        rintro ⟨a, b⟩ hp
        rcases (mem_scannedPairs s a b).1 hp with ⟨_, h2, _, h4⟩
        exact ⟨lt_of_le_of_lt h2 hbs.1, lt_of_le_of_lt h4 hbs.2⟩
      have hget := foldl_writeStep_get nx ny s x y hx hy (scannedPairs s)
        (scannedPairs_nodup s) hbounds arr hlen
      have hlen1 : (applyShape nx ny arr s).length = nx * ny := by
        rw [applyShape_eq, foldl_writeStep_length]; exact hlen
      have hstep : (applyShape nx ny arr s).getD ((ny - y - 1) * nx + x) (F.fin 0) =
          if (s.bounding_box.x_low ≤ x ∧ x ≤ s.bounding_box.x_high ∧
              s.bounding_box.y_low ≤ y ∧ y ≤ s.bounding_box.y_high) ∧
              s.inside (F.fin (x : ℚ)) (F.fin (y : ℚ)) = true
          then fadd (arr.getD ((ny - y - 1) * nx + x) (F.fin 0)) s.intensity
          else arr.getD ((ny - y - 1) * nx + x) (F.fin 0) := by
        rw [List.getD_eq_getElem?_getD, applyShape_eq, hget]
        by_cases hc : ((x, y) ∈ scannedPairs s ∧
            s.inside (F.fin (x : ℚ)) (F.fin (y : ℚ)) = true)
        · rw [if_pos hc, if_pos]
          · rfl
          · exact ⟨(mem_scannedPairs s x y).1 hc.1, hc.2⟩
        · rw [if_neg hc, if_neg, ← List.getD_eq_getElem?_getD]
          intro hc2
          exact hc ⟨(mem_scannedPairs s x y).2 hc2.1, hc2.2⟩
      rcases ih (applyShape nx ny arr s) hlen1 hbt with ⟨ihlen, ihget⟩
      refine ⟨by rw [List.foldl_cons]; exact ihlen, ?_⟩
      rw [List.foldl_cons, ihget, hstep, List.foldl_cons]

/-- Claim C7, amended for the shape-pipeline rasterizer in phantom.rs: the
buffer always has length nx times ny, and whenever every bounding box lies
inside the canvas the cell at the flipped index (ny - y - 1) * nx + x of an
in-canvas pixel (x, y) holds exactly the fold, in shape order, of the
intensities of the shapes whose bounding box contains the pixel and whose
containment test holds there - that is, every write for a tested pixel lands
at the claimed flipped index.  The legacy phantom function in lib.rs instead
writes at that index minus one; see the counterexample. -/
theorem C7_buffer_invariant (shapes : List ShapeOnCanvas) (nx ny x y : ℕ)
    (hb : ∀ s ∈ shapes, s.bounding_box.x_high < nx ∧ s.bounding_box.y_high < ny)
    (hx : x < nx) (hy : y < ny) :
    (phantom shapes nx ny).length = nx * ny ∧
    (phantom shapes nx ny)[(ny - y - 1) * nx + x]? =
      some (shapes.foldl (fun acc s =>
        if (s.bounding_box.x_low ≤ x ∧ x ≤ s.bounding_box.x_high ∧
            s.bounding_box.y_low ≤ y ∧ y ≤ s.bounding_box.y_high) ∧
            s.inside (F.fin (x : ℚ)) (F.fin (y : ℚ)) = true
        then fadd acc s.intensity else acc) (F.fin 0)) := by
  have hphantom : phantom shapes nx ny =
      shapes.foldl (applyShape nx ny) (List.replicate (nx * ny) (F.fin 0)) := rfl
  have hrep : (List.replicate (nx * ny) (F.fin 0)).length = nx * ny :=
    List.length_replicate _ _
  rcases phantom_foldl_aux nx ny x y hx hy shapes _ hrep hb with ⟨hlen, hget⟩
  have hrep0 : (List.replicate (nx * ny) (F.fin 0)).getD
      ((ny - y - 1) * nx + x) (F.fin 0) = F.fin 0 := by
    rw [List.getD_eq_getElem?_getD, List.getElem?_replicate,
      if_pos (idx_lt nx ny x y hx hy)]
    rfl
  rw [hphantom]
  refine ⟨hlen, ?_⟩
  have hidx : (ny - y - 1) * nx + x <
      (shapes.foldl (applyShape nx ny) (List.replicate (nx * ny) (F.fin 0))).length := by
    rw [hlen]; exact idx_lt nx ny x y hx hy
  rw [hrep0] at hget
  rw [List.getD_eq_getElem?_getD, List.getElem?_eq_getElem hidx] at hget
  simp only [Option.getD_some] at hget
  rw [List.getElem?_eq_getElem hidx, hget]

/-- Witness for C7 at the concrete one-rectangle raster on the 4 by 4 canvas. -/
theorem C7_buffer_invariant_witness :
    (0 : ℕ) < 4 ∧
      (phantom [Shape.on_canvas ops0 stripRect 4 4] 4 4).length = 4 * 4 :=
  ⟨by omega,
    (C7_buffer_invariant [Shape.on_canvas ops0 stripRect 4 4] 4 4 0 0
      (by
        intro s hs
        rcases List.mem_singleton.1 hs with rfl
        constructor <;>
          norm_num [Shape.on_canvas, stripRect, Shape.rectangle, Rectangle.on_canvas,
            ShapeOnCanvas.bounding_box, rect_min_max, listMinF, listMaxF, ops0,
            fminBy, fdiv, fadd, fmul, fneg, fsub, fle, flt, ffloor, fceil, castU32,
            frac_pi_2, Int.floor_neg, Int.ceil_neg])
      (by omega) (by omega)).1⟩

end Shepplogan
